import Mathlib

/-
Verification of the Face-Attendance system core against its specification.

Shallow embedding of the decision components of the repository:
  * services/admin_auth.py   -- authorization session authority
  * services/face_recognition.py -- identity matcher (enroll / identify)
  * services/anti_spoofing.py    -- liveness fusion engine
  * models/attendance.py + routes/attendance.py -- attendance transitions
  * routes/admin.py          -- privileged enrollment gate (bootstrap rule)

Conventions: Python floats are modelled by exact rationals (ℚ); wall-clock
times by integers (session authority, seconds) or rationals (attendance);
Python dicts keyed by strings by association lists with first-match lookup
(Python dicts have unique keys, which first-match lookup preserves).
Image-processing primitives (OpenCV / face_recognition) are opaque to the
core decision logic and are passed in as abstract functions.
-/

namespace FaceAttendance

/-! ## Rounding

Python's builtin round(x, n) rounds half to even at n decimal digits.
-/

/-- Round a rational to the nearest integer, halves to the even neighbour
(the behaviour of Python's builtin round on exact values). -/
def roundHalfEven (q : ℚ) : ℤ :=
  let f : ℤ := ⌊q⌋
  let r : ℚ := q - f
  if r < 1/2 then f
  else if 1/2 < r then f + 1
  else if Even f then f else f + 1

/-- Round a rational to n decimal digits, halves to even: Python round(x, n). -/
def roundTo (n : ℕ) (q : ℚ) : ℚ :=
  (roundHalfEven (q * 10 ^ n) : ℚ) / 10 ^ n

/-! ## Association-list store

Models a Python dict with string keys: lookup is first match, assignment
replaces the first matching entry in place or appends, deletion removes the
first matching entry.  (Python dicts never hold duplicate keys, so on any
store reachable from an empty dict these agree with dict semantics.)
-/

/-- Lookup of a key in an association list (Python d[k] / k in d). -/
def lookupKey {β : Type} : List (String × β) → String → Option β
  | [], _ => none
  | (k, v) :: rest, t => if k = t then some v else lookupKey rest t

/-- Assignment d[k] = v: replace the first entry with key k, else append. -/
def setKey {β : Type} : List (String × β) → String → β → List (String × β)
  | [], t, v => [(t, v)]
  | (k, w) :: rest, t, v =>
    if k = t then (t, v) :: rest else (k, w) :: setKey rest t v

/-- Deletion del d[k]: remove the first entry with key k. -/
def eraseKey {β : Type} : List (String × β) → String → List (String × β)
  | [], _ => []
  | (k, w) :: rest, t => if k = t then rest else (k, w) :: eraseKey rest t

/-! ## Authorization session authority (services/admin_auth.py)

The session store _active_sessions maps a token to (admin_id, timestamp).
Admin database rows (AdminModel) are modelled as an association list from
admin_id to an AdminRec.  Time is an integer number of seconds.
-/

/-- Row of the admins table consulted by verify_session. -/
structure AdminRec where
  name : String
  role : String
  is_active : Bool
deriving DecidableEq, Repr

/-- The _active_sessions store: token to (admin_id, timestamp). -/
abbrev Sessions := List (String × String × ℤ)

/-- Result dictionary of AdminAuthService.verify_session. -/
structure VerifyResult where
  valid : Bool
  admin_id : Option String
  name : Option String
  role : Option String
  remaining_time : Option ℤ
  message : String
deriving DecidableEq, Repr

/-- AdminAuthService.verify_session (admin_auth.py lines 143-184), returning
the result dictionary and the updated session store.  now is the value of
time.time() during the call. -/
def verify_session (TTL now : ℤ) (admins : List (String × AdminRec))
    (ss : Sessions) (token : String) : VerifyResult × Sessions :=
  if token = "" then
    (⟨false, none, none, none, none, "No session token provided"⟩, ss)
  else
    match lookupKey ss token with
    | none => (⟨false, none, none, none, none, "Invalid session token"⟩, ss)
    | some (admin_id, timestamp) =>
      if now - timestamp > TTL then
        (⟨false, none, none, none, none, "Session expired. Please re-authenticate."⟩,
          eraseKey ss token)
      else
        let admin := lookupKey admins admin_id
        (⟨true, some admin_id, admin.map AdminRec.name, admin.map AdminRec.role,
          some (TTL - (now - timestamp)), ""⟩, ss)

/-- Result dictionary of AdminAuthService.extend_session. -/
structure ExtendResult where
  success : Bool
  expires_in : Option ℤ
  message : String
deriving DecidableEq, Repr

/-- AdminAuthService.extend_session (admin_auth.py lines 193-208): looks the
token up in _active_sessions and, when present, resets its timestamp to
now.  No expiry check is performed. -/
def extend_session (TTL now : ℤ) (ss : Sessions) (token : String) :
    ExtendResult × Sessions :=
  match lookupKey ss token with
  | none => (⟨false, none, "Invalid session token"⟩, ss)
  | some (admin_id, _) =>
    (⟨true, some TTL, "Session extended"⟩, setKey ss token (admin_id, now))

/-- AdminAuthService.invalidate_session (admin_auth.py lines 186-191). -/
def invalidate_session (ss : Sessions) (token : String) : Bool × Sessions :=
  match lookupKey ss token with
  | none => (false, ss)
  | some _ => (true, eraseKey ss token)

/-- An operation of the token-consuming session API. -/
inductive SessOp where
  | verify (now : ℤ) (tok : String)
  | extend (now : ℤ) (tok : String)
  | invalidate (tok : String)

/-- Effect of one session operation on the store. -/
def applySessOp (TTL : ℤ) (admins : List (String × AdminRec)) (ss : Sessions) :
    SessOp → Sessions
  | .verify now tok => (verify_session TTL now admins ss tok).2
  | .extend now tok => (extend_session TTL now ss tok).2
  | .invalidate tok => (invalidate_session ss tok).2

/-- Effect of a sequence of session operations on the store. -/
def applySessOps (TTL : ℤ) (admins : List (String × AdminRec))
    (ops : List SessOp) (ss : Sessions) : Sessions :=
  ops.foldl (applySessOp TTL admins) ss

/-! ## Identity matcher (services/face_recognition.py)

Face embeddings are fixed-length vectors, modelled as lists of rationals.
The detector and encoder (OpenCV / dlib) are opaque collaborators, passed
in as abstract functions; the distance function stands for
face_recognition.face_distance restricted to a single stored encoding.
-/

/-- The known_face_encodings registry: person_id to stored centroid. -/
abbrev FaceStore := List (String × List ℚ)

/-- Componentwise sum of two vectors (numpy broadcast addition on
equal-length vectors). -/
def vecAdd (a b : List ℚ) : List ℚ := List.zipWith (· + ·) a b

/-- Componentwise sum of a nonempty family of vectors. -/
def vecSum : List (List ℚ) → List ℚ
  | [] => []
  | [v] => v
  | v :: w :: vs => vecAdd v (vecSum (w :: vs))

/-- np.mean(encodings, axis=0): the componentwise arithmetic mean. -/
def vecMean (l : List (List ℚ)) : List ℚ :=
  (vecSum l).map (fun x => x / (l.length : ℚ))

/-- Embedding extraction for one sample image inside the register_face loop
(face_recognition.py lines 178-188): an image is skipped when zero faces or
more than one face are detected, and kept when the single detected face
yields an encoding. -/
def sampleEncoding {Img Loc : Type} (detect : Img → List Loc)
    (enc : Img → Loc → Option (List ℚ)) (image : Img) : Option (List ℚ) :=
  match detect image with
  | [loc] => enc image loc
  | _ => none

/-- The embeddings of exactly those samples that produced a valid
single-face embedding, in sample order. -/
def validEncodings {Img Loc : Type} (detect : Img → List Loc)
    (enc : Img → Loc → Option (List ℚ)) (images : List Img) : List (List ℚ) :=
  images.filterMap (sampleEncoding detect enc)

/-- Result dictionary of FaceRecognitionService.register_face. -/
structure RegisterResult where
  success : Bool
  images_used : ℕ
  message : String
deriving DecidableEq, Repr

/-- FaceRecognitionService.register_face (face_recognition.py lines 165-207):
collect the encodings of valid samples, fail when none, else store the
averaged centroid under person_id, overwriting any prior entry. -/
def register_face {Img Loc : Type} (detect : Img → List Loc)
    (enc : Img → Loc → Option (List ℚ)) (store : FaceStore) (person_id : String)
    (images : List Img) : RegisterResult × FaceStore :=
  let encodings := images.foldl (fun acc image =>
    match sampleEncoding detect enc image with
    | some e => acc ++ [e]
    | none => acc) []
  if encodings.length < 1 then
    (⟨false, 0, "Could not detect a clear face in any of the provided images"⟩, store)
  else
    let average_encoding := vecMean encodings
    (⟨true, encodings.length, "Successfully registered face"⟩,
      setKey store person_id average_encoding)

/-- Result dictionary of FaceRecognitionService.identify_face. -/
structure IdentifyResult where
  success : Bool
  person_id : Option String
  confidence : Option ℚ
  message : String
deriving DecidableEq, Repr

/-- One iteration of the best-match loop (face_recognition.py lines 282-286):
the running best (initially best_id None, best_dist infinity, modelled by
the none state) is replaced only on a strictly smaller distance. -/
def scanStep {α : Type} (distTo : α → ℚ) (st : Option (String × ℚ))
    (e : String × α) : Option (String × ℚ) :=
  match st with
  | none => some (e.1, distTo e.2)
  | some (bid, bd) => if distTo e.2 < bd then some (e.1, distTo e.2) else some (bid, bd)

/-- The best-match loop over the whole registry in iteration order. -/
def scanBest {α : Type} (distTo : α → ℚ) (entries : List (String × α)) :
    Option (String × ℚ) :=
  entries.foldl (scanStep distTo) none

/-- Matching stage of FaceRecognitionService.identify_face (face_recognition.py
lines 271-304), after a single probe encoding has been extracted: scan the
registry for the minimum distance, report confidence round(1 - distance, 4),
accept iff the minimum distance is at most the tolerance.  The none branch
of the match is unreachable for a nonempty registry. -/
def identify_core {α : Type} (dist : α → α → ℚ) (probe : α) (tolerance : ℚ)
    (entries : List (String × α)) : IdentifyResult :=
  if entries.isEmpty then
    ⟨false, none, none, "No registered faces in the system"⟩
  else
    match scanBest (dist probe) entries with
    | none => ⟨false, none, none, "No registered faces in the system"⟩
    | some (best_match_id, best_match_distance) =>
      let confidence := roundTo 4 (1 - best_match_distance)
      if best_match_distance ≤ tolerance then
        ⟨true, some best_match_id, some confidence, "Face identified successfully"⟩
      else
        ⟨false, none, some confidence, "Face not recognized"⟩

/-! ## Liveness fusion engine (services/anti_spoofing.py)

Frames are opaque pixel buffers.  The texture verdict of analyze_texture on
a frame and the pixel-difference motion test between two processed frames
are abstracted as Boolean functions (they are pure OpenCV computations on
the frame contents); the control flow of detect_motion and
comprehensive_spoof_check is embedded faithfully.
-/

/-- AntiSpoofingService.detect_motion (anti_spoofing.py lines 178-213):
given the stored previous frame (None after a reset), return the motion
verdict and the new stored frame.  The first call after a reset always
stores the frame and reports no motion. -/
def detect_motion {α : Type} (motionBetween : α → α → Bool)
    (prev_frame : Option α) (current : α) : Bool × Option α :=
  match prev_frame with
  | none => (false, some current)
  | some prev => (motionBetween prev current, some current)

/-- One iteration of the motion-counting loop of comprehensive_spoof_check:
state is (motion_count, prev_frame). -/
def motionStep {α : Type} (mo : α → α → Bool) (st : ℕ × Option α) (f : α) :
    ℕ × Option α :=
  let r := detect_motion mo st.2 f
  (st.1 + (if r.1 then 1 else 0), r.2)

/-- The motion-counting loop over a list of frames. -/
def motionFold {α : Type} (mo : α → α → Bool) (st : ℕ × Option α) (l : List α) :
    ℕ × Option α :=
  l.foldl (motionStep mo) st

/-- Elements at even indices: Python range(0, len(l), 2) sampling. -/
def stride2 {α : Type} : List α → List α
  | [] => []
  | [a] => [a]
  | a :: _ :: rest => a :: stride2 rest

/-- Python frames[-frame_count:] if len(frames) > frame_count else frames
(note frames[-0:] is the whole list). -/
def framesToCheck {α : Type} (frame_count : ℕ) (frames : List α) : List α :=
  if frames.length > frame_count then
    if frame_count = 0 then frames else frames.drop (frames.length - frame_count)
  else frames

/-- Result dictionary of comprehensive_spoof_check.  The early not-enough-
frames return carries only success/overall_is_real/message; the full path
carries no success key: absent keys are none. -/
structure SpoofResult where
  success : Option Bool
  overall_is_real : Bool
  texture_is_real : Option Bool
  motion_count : Option ℕ
  confidence : Option ℚ
  message : String
deriving DecidableEq, Repr

/-- AntiSpoofingService.comprehensive_spoof_check (anti_spoofing.py lines
219-281): optimistically pass when fewer frames than min(frame_count, 3)
are supplied; otherwise analyze texture on the last of the (at most
frame_count) most recent frames, count motion over the stride-2 samples
after a detector reset, and fuse with OR.  The none result models the
Python IndexError on frames_to_check[-1] when that list is empty (only
reachable with frame_count = 0 and no frames). -/
def comprehensive_spoof_check {α : Type} (tex : α → Bool) (mo : α → α → Bool)
    (frame_count : ℕ) (frames : List α) : Option SpoofResult :=
  let min_frames := min frame_count 3
  if frames.length < min_frames then
    some ⟨some false, true, none, none, none, "Not enough frames"⟩
  else
    let frames_to_check := framesToCheck frame_count frames
    match frames_to_check.getLast? with
    | none => none
    | some lastFrame =>
      let texture_real := tex lastFrame
      let motion_count := (motionFold mo (0, none) (stride2 frames_to_check)).1
      let has_motion : Bool := decide (1 ≤ motion_count)
      let overall := texture_real || has_motion
      some ⟨none, overall, some texture_real, some motion_count,
        some ((if texture_real then 3/5 else 0) + (if has_motion then 2/5 else 0)),
        if overall then "Liveness verification passed" else "Possible spoof"⟩

/-! ## Attendance transition engine (models/attendance.py, routes/attendance.py)

The per-(subject, date) attendance row is modelled as an optional record;
timestamps are rationals (seconds).  mark_attendance_step is the
auto-dispatch of routes/attendance.py mark_attendance after a successful
identification, with the minimum duration 20 seconds that the route passes.
-/

/-- Today's attendance row: punch_in is always set on creation. -/
structure AttRecord where
  punch_in : ℚ
  punch_out : Option ℚ
  hours_worked : Option ℚ
deriving DecidableEq, Repr

/-- Result dictionary of record_punch_out_with_validation. -/
structure PunchOutResult where
  error : Option String
  discarded : Bool
  duration_seconds : Option ℚ
  hours_worked : Option ℚ
deriving DecidableEq, Repr

/-- AttendanceModel.record_punch_out_with_validation (attendance.py lines
101-165): reject when no open record or already punched out; delete and
report discard with the measured elapsed seconds when elapsed <
min_duration_seconds; otherwise close the record with punch_out = now and
hours_worked = round(elapsed/3600, 2). -/
def record_punch_out_with_validation (min_duration_seconds now : ℚ)
    (st : Option AttRecord) : PunchOutResult × Option AttRecord :=
  match st with
  | none => (⟨some "No punch-in record found for today", false, none, none⟩, none)
  | some r =>
    if r.punch_out.isSome then
      (⟨some "Already punched out today", false, none, none⟩, some r)
    else
      let duration_seconds := now - r.punch_in
      if duration_seconds < min_duration_seconds then
        (⟨none, true, some duration_seconds, none⟩, none)
      else
        let hours_worked := roundTo 2 (duration_seconds / 3600)
        (⟨none, false, none, some hours_worked⟩,
          some ⟨r.punch_in, some now, some hours_worked⟩)

/-- Route-level response of mark_attendance. -/
structure MarkResult where
  success : Bool
  action : Option String
  message : String
  hours_worked : Option ℚ
deriving DecidableEq, Repr

/-- Auto-dispatch of routes/attendance.py mark_attendance (lines 102-172)
after identification: no record yet punches in, a closed record is
rejected without mutation, an open record goes through
record_punch_out_with_validation with min duration 20 seconds. -/
def mark_attendance_step (now : ℚ) (st : Option AttRecord) :
    MarkResult × Option AttRecord :=
  match st with
  | none =>
    (⟨true, some "Punch In", "Punch-in recorded", none⟩, some ⟨now, none, none⟩)
  | some r =>
    if r.punch_out.isSome then
      (⟨false, none, "Attendance already complete for today", none⟩, some r)
    else
      let pr := record_punch_out_with_validation 20 now (some r)
      match pr.1.error with
      | some e => (⟨false, none, e, none⟩, pr.2)
      | none =>
        if pr.1.discarded then
          (⟨false, none, "Attendance discarded - punch-out too soon after punch-in",
            none⟩, pr.2)
        else
          (⟨true, some "Punch Out", "Punch-out recorded", pr.1.hours_worked⟩, pr.2)

/-! ## Privileged enrollment gate (routes/admin.py register_admin)

hasAdmin models AdminModel.has_any_registered_admin (the privileged-actor
registry is nonempty); is_first_admin is its negation.  The non-core
checks are abstracted to Booleans: fieldsPresent (all required JSON fields
present), imagesOk (both the raw >= 3 and the decoded >= 3 image-count
checks pass), spoofOk (the texture gate passes or spoof detection is
disabled), faceRegOk (face_service.register_face succeeds).
-/

/-- Route-level response of register_admin. -/
structure AdminRegResult where
  success : Bool
  requires_auth : Bool
  role_used : Option String
  message : String
deriving DecidableEq, Repr

/-- routes/admin.py register_admin (lines 59-127): when the registry is
empty the request skips the session gate and the enrolled role is forced to
super_admin; otherwise the supplied token must verify and carry role
super_admin (a missing token verifies as empty string and fails). -/
def register_admin_route (TTL now : ℤ) (admins : List (String × AdminRec))
    (ss : Sessions) (hasAdmin : Bool) (token : Option String)
    (req_role : Option String)
    (fieldsPresent imagesOk spoofOk faceRegOk : Bool) : AdminRegResult :=
  if !fieldsPresent then ⟨false, false, none, "Missing required field"⟩
  else
    let is_first := !hasAdmin
    let proceed : Unit → AdminRegResult := fun _ =>
      if !imagesOk then ⟨false, false, none, "Could not process enough valid images"⟩
      else if !spoofOk then
        ⟨false, false, none, "Spoof detection failed. Please use a real camera."⟩
      else
        let role := if is_first then "super_admin" else req_role.getD "admin"
        if faceRegOk then ⟨true, false, some role, "Admin registered successfully"⟩
        else ⟨false, false, none,
          "Could not detect a clear face in any of the provided images"⟩
    if is_first then proceed ()
    else
      let session := (verify_session TTL now admins ss (token.getD "")).1
      if !session.valid then
        ⟨false, true, none, "Admin authorization required. Please authenticate first."⟩
      else if session.role ≠ some "super_admin" then
        ⟨false, false, none, "Only super admin can register new admins"⟩
      else proceed ()

/-! # Theorems -/

theorem lookupKey_eraseKey_none {β : Type} (ss : List (String × β)) (t tok : String)
    (h : lookupKey ss tok = none) : lookupKey (eraseKey ss t) tok = none := by
  induction ss with
  | nil => exact h
  | cons p rest ih =>
    obtain ⟨k, v⟩ := p
    simp only [lookupKey] at h
    split at h
    · exact absurd h (by simp)
    · rename_i hkt
      by_cases hk : k = t
      · simpa [eraseKey, hk] using h
      · simp only [eraseKey, if_neg hk, lookupKey, if_neg hkt]
        exact ih h

theorem lookupKey_setKey_ne {β : Type} (ss : List (String × β)) (t tok : String) (v : β)
    (hne : t ≠ tok) : lookupKey (setKey ss t v) tok = lookupKey ss tok := by
  induction ss with
  | nil => simp [setKey, lookupKey, hne]
  | cons p rest ih =>
    obtain ⟨k, w⟩ := p
    by_cases hk : k = t
    · subst hk
      simp [setKey, lookupKey, hne]
    · simp [setKey, lookupKey, hk, ih]

theorem lookupKey_setKey_self {β : Type} (ss : List (String × β)) (t : String) (v : β) :
    lookupKey (setKey ss t v) t = some v := by
  induction ss with
  | nil => simp [setKey, lookupKey]
  | cons p rest ih =>
    obtain ⟨k, w⟩ := p
    by_cases hk : k = t
    · simp [setKey, lookupKey, hk]
    · simp [setKey, lookupKey, hk, ih]

theorem lookupKey_applySessOp_none (TTL : ℤ) (admins : List (String × AdminRec))
    (ss : Sessions) (op : SessOp) (tok : String) (h : lookupKey ss tok = none) :
    lookupKey (applySessOp TTL admins ss op) tok = none := by
  cases op with
  | verify now t =>
    simp only [applySessOp, verify_session]
    split
    · exact h
    · split
      · exact h
      · split
        · exact lookupKey_eraseKey_none ss t tok h
        · exact h
  | extend now t =>
    simp only [applySessOp, extend_session]
    split
    · exact h
    · rename_i aid ts heq
      by_cases hte : t = tok
      · subst hte
        rw [h] at heq
        exact absurd heq (by simp)
      · rw [lookupKey_setKey_ne ss t tok _ hte]
        exact h
  | invalidate t =>
    simp only [applySessOp, invalidate_session]
    split
    · exact h
    · exact lookupKey_eraseKey_none ss t tok h

theorem lookupKey_applySessOps_none (TTL : ℤ) (admins : List (String × AdminRec))
    (ops : List SessOp) (ss : Sessions) (tok : String) (h : lookupKey ss tok = none) :
    lookupKey (applySessOps TTL admins ops ss) tok = none := by
  induction ops generalizing ss with
  | nil => exact h
  | cons op rest ih =>
    exact ih _ (lookupKey_applySessOp_none TTL admins ss op tok h)

theorem lookupKey_eq_none_of_not_mem {β : Type} (ss : List (String × β)) (t : String)
    (h : t ∉ ss.map Prod.fst) : lookupKey ss t = none := by
  induction ss with
  | nil => rfl
  | cons p rest ih =>
    obtain ⟨k, v⟩ := p
    simp only [List.map_cons, List.mem_cons, not_or] at h
    simp only [lookupKey]
    rw [if_neg (fun hkt : k = t => h.1 hkt.symm)]
    exact ih h.2

theorem lookupKey_eraseKey_self_of_nodup {β : Type} (ss : List (String × β)) (t : String)
    (hnd : (ss.map Prod.fst).Nodup) : lookupKey (eraseKey ss t) t = none := by
  induction ss with
  | nil => rfl
  | cons p rest ih =>
    obtain ⟨k, v⟩ := p
    simp only [List.map_cons, List.nodup_cons] at hnd
    by_cases hk : k = t
    · subst hk
      simp only [eraseKey, if_pos rfl]
      exact lookupKey_eq_none_of_not_mem rest k hnd.1
    · simp only [eraseKey, if_neg hk, lookupKey, if_neg hk]
      exact ih hnd.2

theorem verify_session_valid_false_of_absent (TTL now : ℤ)
    (admins : List (String × AdminRec)) (ss : Sessions) (tok : String)
    (h : lookupKey ss tok = none) :
    (verify_session TTL now admins ss tok).1.valid = false := by
  by_cases h0 : tok = "" <;> simp [verify_session, h0, h]

/-- C2: verify_session fails when the token is empty or absent from the
session store; when now - lastTouchedAt > TTL it removes the entry and fails
as expired, after which the token stays absent under every further sequence
of verify/extend/invalidate operations, so every later validate of it fails;
otherwise it succeeds and returns remaining = TTL - (now - lastTouchedAt). -/
theorem verify_session_validate_spec (TTL now : ℤ) (admins : List (String × AdminRec))
    (ss : Sessions) (tok : String) (hnd : (ss.map Prod.fst).Nodup) :
    (tok = "" → verify_session TTL now admins ss tok =
        (⟨false, none, none, none, none, "No session token provided"⟩, ss)) ∧
    (tok ≠ "" → lookupKey ss tok = none → verify_session TTL now admins ss tok =
        (⟨false, none, none, none, none, "Invalid session token"⟩, ss)) ∧
    (∀ aid ts, tok ≠ "" → lookupKey ss tok = some (aid, ts) →
      (TTL < now - ts →
        (verify_session TTL now admins ss tok).1.valid = false ∧
        (verify_session TTL now admins ss tok).2 = eraseKey ss tok ∧
        (∀ ops : List SessOp, ∀ now2 : ℤ,
          lookupKey (applySessOps TTL admins ops
            (verify_session TTL now admins ss tok).2) tok = none ∧
          (verify_session TTL now2 admins (applySessOps TTL admins ops
            (verify_session TTL now admins ss tok).2) tok).1.valid = false)) ∧
      (now - ts ≤ TTL →
        (verify_session TTL now admins ss tok).1 =
          ⟨true, some aid, (lookupKey admins aid).map AdminRec.name,
            (lookupKey admins aid).map AdminRec.role, some (TTL - (now - ts)), ""⟩ ∧
        (verify_session TTL now admins ss tok).2 = ss)) := by
  refine ⟨?_, ?_, ?_⟩
  · intro h0
    simp [verify_session, h0]
  · intro h0 habs
    simp [verify_session, h0, habs]
  · intro aid ts h0 hsome
    have hverify : verify_session TTL now admins ss tok =
        if now - ts > TTL then
          (⟨false, none, none, none, none, "Session expired. Please re-authenticate."⟩,
            eraseKey ss tok)
        else
          (⟨true, some aid, (lookupKey admins aid).map AdminRec.name,
            (lookupKey admins aid).map AdminRec.role, some (TTL - (now - ts)), ""⟩, ss) := by
      simp [verify_session, h0, hsome]
    constructor
    · intro hexp
      rw [hverify, if_pos hexp]
      refine ⟨rfl, rfl, ?_⟩
      intro ops now2
      have habs : lookupKey (applySessOps TTL admins ops (eraseKey ss tok)) tok = none :=
        lookupKey_applySessOps_none TTL admins ops _ tok
          (lookupKey_eraseKey_self_of_nodup ss tok hnd)
      exact ⟨habs, verify_session_valid_false_of_absent TTL now2 admins _ tok habs⟩
    · intro hlive
      rw [hverify, if_neg (not_lt.mpr hlive)]
      exact ⟨rfl, rfl⟩

/-- C2 witness: with TTL 300 a token touched at time 0 validates at time 10
with remaining 290, and an expired token validates to failure with the entry
evicted. -/
theorem verify_session_validate_spec_witness :
    (verify_session 300 10 [("a", AdminRec.mk "N" "admin" true)]
        [("tk", ("a", (0 : ℤ)))] "tk").1 =
      ⟨true, some "a", some "N", some "admin", some 290, ""⟩ ∧
    (verify_session 300 400 [("a", AdminRec.mk "N" "admin" true)]
        [("tk", ("a", (0 : ℤ)))] "tk").1.valid = false := by
  constructor
  · have h := ((verify_session_validate_spec 300 10 [("a", AdminRec.mk "N" "admin" true)]
      [("tk", ("a", (0 : ℤ)))] "tk" (by decide)).2.2 "a" 0 (by decide) (by decide)).2
      (by norm_num)
    exact h.1.trans (by decide)
  · have h := ((verify_session_validate_spec 300 400 [("a", AdminRec.mk "N" "admin" true)]
      [("tk", ("a", (0 : ℤ)))] "tk" (by decide)).2.2 "a" 0 (by decide) (by decide)).1
      (by norm_num)
    exact h.1

/-- C1 counterexample: with TTL 300, the token "t" last touched at time 0 is
already expired at time 301 (age 301 > 300), yet extend_session succeeds on
it and resets its timestamp to 301, reviving the expired token instead of
failing with InvalidToken as the claim requires. -/
theorem extend_session_revives_expired_token :
    (301 : ℤ) - 0 > 300 ∧
    (extend_session 300 301 [("t", ("a", (0 : ℤ)))] "t").1.success = true ∧
    (extend_session 300 301 [("t", ("a", (0 : ℤ)))] "t").2 = [("t", ("a", 301))] := by
  refine ⟨by norm_num, ?_, ?_⟩ <;> simp [extend_session, lookupKey, setKey]

/-- C1 (amended): extend_session succeeds exactly when the token is present
in the session store, with no expiry check: a token of any age that is still
in the store (not yet lazily evicted by verify_session and not invalidated)
has its lastTouchedAt reset to now, while an absent token fails with
InvalidToken. -/
theorem extend_session_spec (TTL now : ℤ) (ss : Sessions) (tok : String) :
    ((extend_session TTL now ss tok).1.success = (lookupKey ss tok).isSome) ∧
    (lookupKey ss tok = none →
      extend_session TTL now ss tok = (⟨false, none, "Invalid session token"⟩, ss)) ∧
    (∀ aid ts, lookupKey ss tok = some (aid, ts) →
      extend_session TTL now ss tok =
        (⟨true, some TTL, "Session extended"⟩, setKey ss tok (aid, now)) ∧
      lookupKey (setKey ss tok (aid, now)) tok = some (aid, now)) := by
  refine ⟨?_, ?_, ?_⟩
  · match h : lookupKey ss tok with
    | none => simp [extend_session, h]
    | some (aid, ts) => simp [extend_session, h]
  · intro h
    simp [extend_session, h]
  · intro aid ts h
    exact ⟨by simp [extend_session, h], lookupKey_setKey_self ss tok (aid, now)⟩

/-- C1 witness: extending a present token succeeds and rewrites its
timestamp; extending an unknown token fails. -/
theorem extend_session_spec_witness :
    (extend_session 300 50 [("t", ("a", (0 : ℤ)))] "t").2 = [("t", ("a", 50))] ∧
    (extend_session 300 50 [("t", ("a", (0 : ℤ)))] "u").1.success = false := by
  constructor
  · have h := ((extend_session_spec 300 50 [("t", ("a", (0 : ℤ)))] "t").2.2 "a" 0
      (by decide)).1
    rw [h]
    decide
  · have h := (extend_session_spec 300 50 [("t", ("a", (0 : ℤ)))] "u").2.1 (by decide)
    rw [h]

theorem roundHalfEven_eq_low (q : ℚ) (f : ℤ) (h1 : (f : ℚ) ≤ q) (h2 : q < f + 1)
    (hr : q - (f : ℚ) < 1/2) : roundHalfEven q = f := by
  have hf : ⌊q⌋ = f := Int.floor_eq_iff.mpr ⟨h1, h2⟩
  simp only [roundHalfEven]
  rw [hf, if_pos hr]

theorem roundHalfEven_eq_high (q : ℚ) (f : ℤ) (h1 : (f : ℚ) ≤ q) (h2 : q < f + 1)
    (hr : (1 : ℚ)/2 < q - (f : ℚ)) : roundHalfEven q = f + 1 := by
  have hf : ⌊q⌋ = f := Int.floor_eq_iff.mpr ⟨h1, h2⟩
  simp only [roundHalfEven]
  rw [hf, if_neg (by linarith), if_pos hr]

theorem scanStep_isSome {α : Type} (distTo : α → ℚ) (st : Option (String × ℚ))
    (e : String × α) : (scanStep distTo st e).isSome := by
  rcases st with _ | ⟨b, d⟩
  · rfl
  · simp only [scanStep]
    split <;> rfl

theorem scanFold_isSome {α : Type} (distTo : α → ℚ) (l : List (String × α))
    (st : Option (String × ℚ)) (h : st.isSome) :
    (l.foldl (scanStep distTo) st).isSome := by
  induction l generalizing st with
  | nil => exact h
  | cons e t ih =>
    rw [List.foldl_cons]
    exact ih _ (scanStep_isSome distTo st e)

theorem scanFold_spec {α : Type} (distTo : α → ℚ) (l : List (String × α)) :
    ∀ (st : Option (String × ℚ)) (b : String) (d : ℚ),
      l.foldl (scanStep distTo) st = some (b, d) →
      (st = some (b, d) ∨ ∃ e ∈ l, e.1 = b ∧ distTo e.2 = d) ∧
      (∀ e ∈ l, d ≤ distTo e.2) ∧
      (∀ b0 d0, st = some (b0, d0) → d ≤ d0) := by
  induction l with
  | nil =>
    intro st b d h
    simp only [List.foldl_nil] at h
    refine ⟨Or.inl h, by simp, ?_⟩
    intro b0 d0 h0
    rw [h] at h0
    simp only [Option.some.injEq, Prod.mk.injEq] at h0
    exact le_of_eq h0.2
  | cons e t ih =>
    intro st b d h
    simp only [List.foldl_cons] at h
    rcases st with _ | ⟨b0, d0⟩
    · rw [show scanStep distTo none e = some (e.1, distTo e.2) from rfl] at h
      obtain ⟨ho, hm, hl⟩ := ih _ b d h
      refine ⟨?_, ?_, ?_⟩
      · right
        rcases ho with ho | ⟨e2, he2, h1, h2⟩
        · simp only [Option.some.injEq, Prod.mk.injEq] at ho
          exact ⟨e, List.mem_cons_self e t, ho.1, ho.2⟩
        · exact ⟨e2, List.mem_cons_of_mem e he2, h1, h2⟩
      · intro e2 he2
        rcases List.mem_cons.mp he2 with rfl | he2
        · exact hl e2.1 (distTo e2.2) rfl
        · exact hm e2 he2
      · intro b1 d1 h1
        exact absurd h1 (by simp)
    · by_cases hlt : distTo e.2 < d0
      · rw [show scanStep distTo (some (b0, d0)) e = some (e.1, distTo e.2) from by
          simp [scanStep, hlt]] at h
        obtain ⟨ho, hm, hl⟩ := ih _ b d h
        have hd : d ≤ distTo e.2 := hl e.1 (distTo e.2) rfl
        refine ⟨?_, ?_, ?_⟩
        · right
          rcases ho with ho | ⟨e2, he2, h1, h2⟩
          · simp only [Option.some.injEq, Prod.mk.injEq] at ho
            exact ⟨e, List.mem_cons_self e t, ho.1, ho.2⟩
          · exact ⟨e2, List.mem_cons_of_mem e he2, h1, h2⟩
        · intro e2 he2
          rcases List.mem_cons.mp he2 with rfl | he2
          · exact hd
          · exact hm e2 he2
        · intro b1 d1 h1
          simp only [Option.some.injEq, Prod.mk.injEq] at h1
          rw [← h1.2]
          exact le_trans hd (le_of_lt hlt)
      · rw [show scanStep distTo (some (b0, d0)) e = some (b0, d0) from by
          simp [scanStep, hlt]] at h
        obtain ⟨ho, hm, hl⟩ := ih _ b d h
        have hd0 : d ≤ d0 := hl b0 d0 rfl
        refine ⟨?_, ?_, ?_⟩
        · rcases ho with ho | ⟨e2, he2, h1, h2⟩
          · exact Or.inl ho
          · exact Or.inr ⟨e2, List.mem_cons_of_mem e he2, h1, h2⟩
        · intro e2 he2
          rcases List.mem_cons.mp he2 with rfl | he2
          · exact le_trans hd0 (not_lt.mp hlt)
          · exact hm e2 he2
        · intro b1 d1 h1
          simp only [Option.some.injEq, Prod.mk.injEq] at h1
          rw [← h1.2]
          exact hd0

theorem scanFold_const {α : Type} (distTo : α → ℚ) (t : List (String × α))
    (a : String) (d : ℚ) (h : ∀ e ∈ t, d ≤ distTo e.2) :
    t.foldl (scanStep distTo) (some (a, d)) = some (a, d) := by
  induction t with
  | nil => rfl
  | cons e t2 ih =>
    have hnlt : ¬ distTo e.2 < d := not_lt.mpr (h e (List.mem_cons_self e t2))
    rw [List.foldl_cons,
      show scanStep distTo (some (a, d)) e = some (a, d) from by simp [scanStep, hnlt]]
    exact ih (fun e2 he2 => h e2 (List.mem_cons_of_mem e he2))

theorem scanFold_gt {α : Type} (distTo : α → ℚ) (l : List (String × α)) (d : ℚ) :
    ∀ st : Option (String × ℚ), (∀ b bd, st = some (b, bd) → d < bd) →
      (∀ e ∈ l, d < distTo e.2) →
      ∀ b bd, l.foldl (scanStep distTo) st = some (b, bd) → d < bd := by
  induction l with
  | nil =>
    intro st hst _ b bd h
    exact hst b bd h
  | cons e t ih =>
    intro st hst hl b bd h
    rw [List.foldl_cons] at h
    refine ih (scanStep distTo st e) ?_
      (fun e2 he2 => hl e2 (List.mem_cons_of_mem e he2)) b bd h
    intro b1 d1 h1
    rcases st with _ | ⟨b0, d0⟩
    · rw [show scanStep distTo none e = some (e.1, distTo e.2) from rfl] at h1
      simp only [Option.some.injEq, Prod.mk.injEq] at h1
      rw [← h1.2]
      exact hl e (List.mem_cons_self e t)
    · by_cases hlt : distTo e.2 < d0
      · rw [show scanStep distTo (some (b0, d0)) e = some (e.1, distTo e.2) from by
          simp [scanStep, hlt]] at h1
        simp only [Option.some.injEq, Prod.mk.injEq] at h1
        rw [← h1.2]
        exact hl e (List.mem_cons_self e t)
      · rw [show scanStep distTo (some (b0, d0)) e = some (b0, d0) from by
          simp [scanStep, hlt]] at h1
        simp only [Option.some.injEq, Prod.mk.injEq] at h1
        rw [← h1.2]
        exact hst b0 d0 rfl

theorem identify_core_eval {α : Type} (dist : α → α → ℚ) (probe : α) (tolerance : ℚ)
    (entries : List (String × α)) (bid : String) (d : ℚ)
    (hne : entries ≠ []) (hscan : scanBest (dist probe) entries = some (bid, d)) :
    identify_core dist probe tolerance entries =
      if d ≤ tolerance then
        ⟨true, some bid, some (roundTo 4 (1 - d)), "Face identified successfully"⟩
      else
        ⟨false, none, some (roundTo 4 (1 - d)), "Face not recognized"⟩ := by
  have hempty : entries.isEmpty = false := by
    rcases entries with _ | ⟨e, t⟩
    · exact absurd rfl hne
    · rfl
  by_cases htol : d ≤ tolerance <;> simp [identify_core, hempty, hscan, htol]

theorem scanBest_first_min {α : Type} (distTo : α → ℚ) (pre post : List (String × α))
    (a : String) (x : α) (d : ℚ) (hx : distTo x = d)
    (hpre : ∀ e ∈ pre, d < distTo e.2) (hpost : ∀ e ∈ post, d ≤ distTo e.2) :
    scanBest distTo (pre ++ (a, x) :: post) = some (a, d) := by
  unfold scanBest
  rw [List.foldl_append, List.foldl_cons]
  have hmid : scanStep distTo (pre.foldl (scanStep distTo) none) (a, x) = some (a, d) := by
    rcases hs : pre.foldl (scanStep distTo) none with _ | ⟨b0, d0⟩
    · simp [scanStep, hx]
    · have hgt : d < d0 :=
        scanFold_gt distTo pre d none (fun b bd h => Option.noConfusion h) hpre b0 d0 hs
      simp [scanStep, hx, hgt]
  rw [hmid]
  exact scanFold_const distTo post a d hpost

/-- C9: given the same probe and registry the matching loop is a pure
function (two runs agree definitionally); on ties the entry encountered
first in registry iteration order wins, because the running minimum is
replaced only on a strictly smaller distance: whenever the entry (a, x) is
the first to attain the minimum distance d (all earlier entries strictly
exceed d, all later ones are at least d, equality allowed), identify
returns id a and confidence round(1 - d, 4). -/
theorem identify_core_tie_break {α : Type} (dist : α → α → ℚ) (probe : α)
    (tolerance : ℚ) (pre post : List (String × α)) (a : String) (x : α) (d : ℚ)
    (hx : dist probe x = d)
    (hpre : ∀ e ∈ pre, d < dist probe e.2)
    (hpost : ∀ e ∈ post, d ≤ dist probe e.2) :
    scanBest (dist probe) (pre ++ (a, x) :: post) = some (a, d) ∧
    (identify_core dist probe tolerance (pre ++ (a, x) :: post)).person_id =
      (if d ≤ tolerance then some a else none) ∧
    (identify_core dist probe tolerance (pre ++ (a, x) :: post)).confidence =
      some (roundTo 4 (1 - d)) := by
  have hscan := scanBest_first_min (dist probe) pre post a x d hx hpre hpost
  have hne : (pre ++ (a, x) :: post).isEmpty = false := by simp
  refine ⟨hscan, ?_, ?_⟩
  · by_cases htol : d ≤ tolerance <;> simp [identify_core, hne, hscan, htol]
  · by_cases htol : d ≤ tolerance <;> simp [identify_core, hne, hscan, htol]

/-- C9 witness: the registry holds "A" and "B" both at distance 1 from the
probe; the scan returns "A", the first of the tied entries. -/
theorem identify_core_tie_break_witness :
    scanBest ((fun p e : ℚ => e) 0) [("A", (1 : ℚ)), ("B", (1 : ℚ))] =
      some ("A", 1) ∧
    (identify_core (fun p e : ℚ => e) 0 2
      [("A", (1 : ℚ)), ("B", (1 : ℚ))]).person_id = some "A" := by
  have h := identify_core_tie_break (fun p e : ℚ => e) 0 2 []
    [("B", (1 : ℚ))] "A" 1 1 rfl (by simp)
    (by
      intro e he
      simp only [List.mem_singleton] at he
      subst he
      norm_num)
  have h1 := h.1
  have h2 := h.2.1
  simp only [List.nil_append] at h1 h2
  refine ⟨h1, ?_⟩
  rw [h2, if_pos (by norm_num)]

/-- C3 counterexample: with a single registry entry at distance 1/100000 and
tolerance 1/2, identify accepts but reports confidence 1 (the value
round(1 - distance, 4)), not 1 - distance = 99999/100000: the reported
confidence is the rounded value, so the claim "confidence = 1 - distance"
fails as stated. -/
theorem identify_reports_rounded_confidence :
    scanBest ((fun p e : ℚ => e) 0) [("A", (1 : ℚ)/9)] = some ("A", 1/9) ∧
    (identify_core (fun p e : ℚ => e) 0 (1/2)
      [("A", (1 : ℚ)/9)]).success = true ∧
    (identify_core (fun p e : ℚ => e) 0 (1/2)
      [("A", (1 : ℚ)/9)]).confidence = some (8889/10000) ∧
    (8889 : ℚ)/10000 ≠ 1 - 1/9 := by
  have hround : roundTo 4 (1 - 1/9 : ℚ) = 8889/10000 := by
    rw [show (1 - 1/9 : ℚ) = 8/9 by norm_num]
    unfold roundTo
    rw [show ((8 : ℚ)/9) * 10 ^ 4 = 80000/9 by norm_num,
      roundHalfEven_eq_high (80000/9) 8888 (by norm_num) (by norm_num) (by norm_num)]
    norm_num
  have hid := identify_core_eval (fun p e : ℚ => e) 0 (1/2) [("A", (1 : ℚ)/9)]
    "A" (1/9) (by simp) rfl
  rw [if_pos (by norm_num : (1 : ℚ)/9 ≤ 1/2)] at hid
  refine ⟨rfl, ?_, ?_, by norm_num⟩
  · rw [hid]
  · rw [hid]
    exact congrArg some hround

/-- C3 (amended): for a nonempty registry identify selects an entry of
minimum distance to the probe, succeeds iff that minimum distance is at
most the tolerance (boundary distance = tolerance accepted, anything
strictly larger rejected), and reports confidence = round(1 - minimum
distance, 4), i.e. 1 - distance rounded to four decimal digits. -/
theorem identify_core_min_spec {α : Type} (dist : α → α → ℚ) (probe : α)
    (tolerance : ℚ) (entries : List (String × α)) (hne : entries ≠ []) :
    ∃ bid d, scanBest (dist probe) entries = some (bid, d) ∧
      (∃ e ∈ entries, e.1 = bid ∧ dist probe e.2 = d) ∧
      (∀ e ∈ entries, d ≤ dist probe e.2) ∧
      (identify_core dist probe tolerance entries).success = decide (d ≤ tolerance) ∧
      (identify_core dist probe tolerance entries).person_id =
        (if d ≤ tolerance then some bid else none) ∧
      (identify_core dist probe tolerance entries).confidence =
        some (roundTo 4 (1 - d)) := by
  have hsome : (scanBest (dist probe) entries).isSome := by
    rcases entries with _ | ⟨e, t⟩
    · exact absurd rfl hne
    · unfold scanBest
      rw [List.foldl_cons]
      exact scanFold_isSome _ t _ rfl
  obtain ⟨⟨bid, d⟩, hx⟩ := Option.isSome_iff_exists.mp hsome
  obtain ⟨ho, hm, _⟩ := scanFold_spec (dist probe) entries none bid d hx
  have hempty : entries.isEmpty = false := by
    rcases entries with _ | ⟨e, t⟩
    · exact absurd rfl hne
    · rfl
  refine ⟨bid, d, hx, ?_, hm, ?_, ?_, ?_⟩
  · rcases ho with ho | ho
    · exact absurd ho (by simp)
    · exact ho
  · by_cases htol : d ≤ tolerance <;> simp [identify_core, hempty, hx, htol]
  · by_cases htol : d ≤ tolerance <;> simp [identify_core, hempty, hx, htol]
  · by_cases htol : d ≤ tolerance <;> simp [identify_core, hempty, hx, htol]

/-- C3 witness: on the registry [("A", 2), ("B", 5)] with probe 0 and
tolerance 3, the minimum-distance entry "A" is selected and accepted. -/
theorem identify_core_min_spec_witness :
    [("A", (2 : ℚ)), ("B", (5 : ℚ))] ≠ ([] : List (String × ℚ)) ∧
    (identify_core (fun p e : ℚ => e) 0 3
      [("A", (2 : ℚ)), ("B", (5 : ℚ))]).person_id = some "A" := by
  refine ⟨by simp, ?_⟩
  obtain ⟨bid, d, hscan, hattain, hmin, hsucc, hpid, hconf⟩ :=
    identify_core_min_spec (fun p e : ℚ => e) 0 3
      [("A", (2 : ℚ)), ("B", (5 : ℚ))] (by simp)
  have hs2 : some (bid, d) = some ("A", (2 : ℚ)) := by
    rw [← hscan]
    simp only [scanBest, List.foldl_cons, List.foldl_nil, scanStep]
    norm_num
  simp only [Option.some.injEq, Prod.mk.injEq] at hs2
  obtain ⟨rfl, rfl⟩ := hs2
  rw [hpid, if_pos (by norm_num)]

theorem getElem?_vecAdd (a b : List ℚ) (i : ℕ) (ha : i < a.length) (hb : i < b.length) :
    (vecAdd a b)[i]? = some (a.getD i 0 + b.getD i 0) := by
  induction a generalizing b i with
  | nil => exact absurd ha (by simp)
  | cons x xs ih =>
    rcases b with _ | ⟨y, ys⟩
    · exact absurd hb (by simp)
    · rcases i with _ | j
      · simp [vecAdd]
      · simp only [vecAdd, List.zipWith_cons_cons, List.getElem?_cons_succ, List.getD]
        have := ih ys j (by simpa using ha) (by simpa using hb)
        simpa [vecAdd, List.getD] using this

theorem vecSum_length (l : List (List ℚ)) (L : ℕ) (h : ∀ v ∈ l, v.length = L)
    (hne : l ≠ []) : (vecSum l).length = L := by
  induction l with
  | nil => exact absurd rfl hne
  | cons v vs ih =>
    rcases vs with _ | ⟨w, ws⟩
    · simpa [vecSum] using h v (List.mem_cons_self v [])
    · rw [show vecSum (v :: w :: ws) = vecAdd v (vecSum (w :: ws)) from rfl]
      rw [vecAdd, List.length_zipWith,
        ih (fun u hu => h u (List.mem_cons_of_mem v hu)) (by simp),
        h v (List.mem_cons_self v (w :: ws))]
      exact Nat.min_self L

theorem vecSum_getD (l : List (List ℚ)) (L : ℕ) (h : ∀ v ∈ l, v.length = L)
    (hne : l ≠ []) (i : ℕ) (hi : i < L) :
    (vecSum l).getD i 0 = (l.map (fun v => v.getD i 0)).sum := by
  induction l with
  | nil => exact absurd rfl hne
  | cons v vs ih =>
    rcases vs with _ | ⟨w, ws⟩
    · simp [vecSum]
    · have hlen : (vecSum (w :: ws)).length = L :=
        vecSum_length (w :: ws) L (fun u hu => h u (List.mem_cons_of_mem v hu)) (by simp)
      have hv : v.length = L := h v (List.mem_cons_self v (w :: ws))
      rw [show vecSum (v :: w :: ws) = vecAdd v (vecSum (w :: ws)) from rfl]
      have hget := getElem?_vecAdd v (vecSum (w :: ws)) i (hv ▸ hi) (hlen ▸ hi)
      rw [List.getD_eq_getElem?_getD, hget]
      simp only [Option.getD_some, List.map_cons, List.sum_cons]
      rw [ih (fun u hu => h u (List.mem_cons_of_mem v hu)) (by simp),
        List.map_cons, List.sum_cons]

theorem vecMean_getD (l : List (List ℚ)) (L : ℕ) (h : ∀ v ∈ l, v.length = L)
    (i : ℕ) (hi : i < L) :
    (vecMean l).getD i 0 = (l.map (fun v => v.getD i 0)).sum / (l.length : ℚ) := by
  by_cases hne : l = []
  · subst hne
    simp [vecMean, vecSum]
  · have hlen : (vecSum l).length = L := vecSum_length l L h hne
    unfold vecMean
    rw [List.getD_eq_getElem?_getD, List.getElem?_map,
      List.getElem?_eq_getElem (by rw [hlen]; exact hi)]
    simp only [Option.map_some', Option.getD_some]
    rw [← List.getD_eq_getElem _ 0 (by rw [hlen]; exact hi), vecSum_getD l L h hne i hi]

theorem setKey_decomp {β : Type} (store : List (String × β)) (k : String) (v : β)
    (hnd : (store.map Prod.fst).Nodup) :
    ∃ pre post, setKey store k v = pre ++ (k, v) :: post ∧
      (∀ e ∈ pre, e.1 ≠ k) ∧ (∀ e ∈ post, e.1 ≠ k) := by
  induction store with
  | nil =>
    exact ⟨[], [], rfl, by simp, by simp⟩
  | cons p rest ih =>
    obtain ⟨k0, w⟩ := p
    simp only [List.map_cons, List.nodup_cons] at hnd
    by_cases hk : k0 = k
    · subst hk
      refine ⟨[], rest, by simp [setKey], by simp, ?_⟩
      intro e he heq
      exact hnd.1 (by rw [← heq]; exact List.mem_map_of_mem Prod.fst he)
    · obtain ⟨pre, post, hdec, hpre, hpost⟩ := ih hnd.2
      refine ⟨(k0, w) :: pre, post, ?_, ?_, hpost⟩
      · simp [setKey, hk, hdec]
      · intro e he
        rcases List.mem_cons.mp he with rfl | he
        · exact hk
        · exact hpre e he

theorem regFold_eq {Img Loc : Type} (detect : Img → List Loc)
    (enc : Img → Loc → Option (List ℚ)) (images : List Img) :
    ∀ acc : List (List ℚ),
      images.foldl (fun acc image =>
        match sampleEncoding detect enc image with
        | some e => acc ++ [e]
        | none => acc) acc = acc ++ validEncodings detect enc images := by
  induction images with
  | nil =>
    intro acc
    simp [validEncodings]
  | cons img t ih =>
    intro acc
    rw [List.foldl_cons]
    rcases h : sampleEncoding detect enc img with _ | e <;>
      simp only [h, validEncodings, List.filterMap_cons] at * <;>
      rw [ih] <;>
      simp [validEncodings, h]

theorem register_face_eq {Img Loc : Type} (detect : Img → List Loc)
    (enc : Img → Loc → Option (List ℚ)) (store : FaceStore) (pid : String)
    (images : List Img) :
    register_face detect enc store pid images =
      if validEncodings detect enc images = [] then
        (⟨false, 0, "Could not detect a clear face in any of the provided images"⟩, store)
      else
        (⟨true, (validEncodings detect enc images).length, "Successfully registered face"⟩,
          setKey store pid (vecMean (validEncodings detect enc images))) := by
  unfold register_face
  rw [regFold_eq detect enc images [], List.nil_append]
  rcases h : validEncodings detect enc images with _ | ⟨v, vs⟩
  · simp
  · simp

/-- C7: register_face collects the embeddings of exactly those samples that
yield a valid single-face embedding (zero or multiple detected faces, or a
failed encoding, skip the sample), fails iff no sample is valid, and
otherwise stores the componentwise arithmetic-mean centroid of the valid
embeddings under the id, overwriting any prior entry and leaving every other
id untouched. -/
theorem register_face_spec {Img Loc : Type} (detect : Img → List Loc)
    (enc : Img → Loc → Option (List ℚ)) (store : FaceStore) (pid : String)
    (images : List Img) :
    ((register_face detect enc store pid images).1.success = false ↔
      validEncodings detect enc images = []) ∧
    (validEncodings detect enc images = [] →
      (register_face detect enc store pid images).2 = store) ∧
    (validEncodings detect enc images ≠ [] →
      (register_face detect enc store pid images).1.images_used =
        (validEncodings detect enc images).length ∧
      lookupKey (register_face detect enc store pid images).2 pid =
        some (vecMean (validEncodings detect enc images)) ∧
      (∀ q, q ≠ pid → lookupKey (register_face detect enc store pid images).2 q =
        lookupKey store q)) ∧
    (∀ L : ℕ, (∀ v ∈ validEncodings detect enc images, v.length = L) →
      ∀ i : ℕ, i < L →
        (vecMean (validEncodings detect enc images)).getD i 0 =
          ((validEncodings detect enc images).map (fun v => v.getD i 0)).sum /
            ((validEncodings detect enc images).length : ℚ)) := by
  rw [register_face_eq]
  by_cases h : validEncodings detect enc images = []
  · refine ⟨by simp [h], by simp [h], fun hne => absurd h hne, ?_⟩
    intro L hL i hi
    exact vecMean_getD _ L hL i hi
  · refine ⟨by simp [h], fun he => absurd he h, ?_, ?_⟩
    · intro _
      refine ⟨by simp [h], ?_, ?_⟩
      · simp only [if_neg h]
        exact lookupKey_setKey_self store pid _
      · intro q hq
        simp only [if_neg h]
        exact lookupKey_setKey_ne store pid q _ (fun hpq => hq hpq.symm)
    · intro L hL i hi
      exact vecMean_getD _ L hL i hi

/-- C7 witness: with a detector that sees one face only in even-numbered
samples, register_face averages exactly the valid samples and stores the
centroid. -/
theorem register_face_spec_witness :
    validEncodings (fun n : ℕ => if n % 2 = 0 then [()] else [])
      (fun n _ => some [(n : ℚ)]) [0, 1, 2] ≠ [] ∧
    lookupKey (register_face (fun n : ℕ => if n % 2 = 0 then [()] else [])
      (fun n _ => some [(n : ℚ)]) [("E9", [(7 : ℚ)])] "E1" [0, 1, 2]).2 "E1" =
      some [(1 : ℚ)] := by
  have hval : validEncodings (fun n : ℕ => if n % 2 = 0 then [()] else [])
      (fun n _ => some [(n : ℚ)]) [0, 1, 2] = [[(0 : ℚ)], [(2 : ℚ)]] := by
    simp [validEncodings, sampleEncoding, List.filterMap_cons]
  have h := ((register_face_spec (fun n : ℕ => if n % 2 = 0 then [()] else [])
    (fun n _ => some [(n : ℚ)]) [("E9", [(7 : ℚ)])] "E1" [0, 1, 2]).2.2.1
    (by rw [hval]; simp)).2.1
  refine ⟨by rw [hval]; simp, ?_⟩
  rw [h, hval]
  have : vecMean [[(0 : ℚ)], [(2 : ℚ)]] = [(1 : ℚ)] := by
    simp [vecMean, vecSum, vecAdd]
  rw [this]

/-- C8: enrolling id "E1" from samples whose valid embeddings average to the
centroid V, then identifying with probe V, succeeds with id "E1" and
confidence 1.0: the distance of V to its own stored centroid is 0 (the
self-distance axiom of the metric), every other stored entry is strictly
farther, and round(1 - 0, 4) = 1. -/
theorem enroll_identify_roundtrip {Img Loc : Type} (detect : Img → List Loc)
    (enc : Img → Loc → Option (List ℚ)) (store : FaceStore) (images : List Img)
    (dist : List ℚ → List ℚ → ℚ) (tolerance : ℚ) (V : List ℚ) (store2 : FaceStore)
    (hV : V = vecMean (validEncodings detect enc images))
    (hstore2 : store2 = (register_face detect enc store "E1" images).2)
    (hval : validEncodings detect enc images ≠ [])
    (hnd : (store.map Prod.fst).Nodup)
    (hself : dist V V = 0)
    (hothers : ∀ e ∈ store2, e.1 ≠ "E1" → 0 < dist V e.2)
    (htol : 0 ≤ tolerance) :
    (identify_core dist V tolerance store2).success = true ∧
    (identify_core dist V tolerance store2).person_id = some "E1" ∧
    (identify_core dist V tolerance store2).confidence = some 1 := by
  have hstore2' : store2 = setKey store "E1" V := by
    rw [hstore2, register_face_eq, if_neg hval, ← hV]
  obtain ⟨pre, post, hdec, hpre, hpost⟩ := setKey_decomp store "E1" V hnd
  have hstore22 : store2 = pre ++ ("E1", V) :: post := by rw [hstore2', hdec]
  have hpre2 : ∀ e ∈ pre, 0 < dist V e.2 := fun e he =>
    hothers e (by rw [hstore22]; exact List.mem_append_left _ he) (hpre e he)
  have hpost2 : ∀ e ∈ post, 0 ≤ dist V e.2 := fun e he =>
    le_of_lt (hothers e
      (by rw [hstore22]; exact List.mem_append_right _ (List.mem_cons_of_mem _ he))
      (hpost e he))
  have hscan : scanBest (dist V) store2 = some ("E1", 0) := by
    rw [hstore22]
    exact scanBest_first_min (dist V) pre post "E1" V 0 hself hpre2 hpost2
  have hne : store2 ≠ [] := by
    rw [hstore22]
    simp
  have hid := identify_core_eval dist V tolerance store2 "E1" 0 hne hscan
  rw [if_pos htol] at hid
  have hround : roundTo 4 (1 - (0 : ℚ)) = 1 := by
    rw [show (1 - 0 : ℚ) = 1 by norm_num]
    unfold roundTo
    rw [show ((1 : ℚ)) * 10 ^ 4 = 10000 by norm_num,
      roundHalfEven_eq_low 10000 10000 (by norm_num) (by norm_num) (by norm_num)]
    norm_num
  rw [hid]
  exact ⟨rfl, rfl, congrArg some hround⟩

/-- C8 witness: enrolling "E1" from two samples with embeddings [2] and [4]
(centroid [3]) into an empty registry, then identifying probe [3], returns
id "E1" with confidence 1. -/
theorem enroll_identify_roundtrip_witness :
    (identify_core
      (fun a b : List ℚ => (a.getD 0 0 - b.getD 0 0) * (a.getD 0 0 - b.getD 0 0))
      [(3 : ℚ)] (1/2) [("E1", [(3 : ℚ)])]).person_id = some "E1" ∧
    (identify_core
      (fun a b : List ℚ => (a.getD 0 0 - b.getD 0 0) * (a.getD 0 0 - b.getD 0 0))
      [(3 : ℚ)] (1/2) [("E1", [(3 : ℚ)])]).confidence = some 1 := by
  have hval2 : validEncodings (fun _ : ℕ => [(() : Unit)]) (fun n _ => some [(n : ℚ)])
      [2, 4] = [[(2 : ℚ)], [(4 : ℚ)]] := by
    simp [validEncodings, sampleEncoding]
  have hmean : vecMean [[(2 : ℚ)], [(4 : ℚ)]] = [(3 : ℚ)] := by
    simp [vecMean, vecSum, vecAdd]
    norm_num
  have h := enroll_identify_roundtrip (fun _ : ℕ => [(() : Unit)])
    (fun n _ => some [(n : ℚ)]) [] [2, 4]
    (fun a b : List ℚ => (a.getD 0 0 - b.getD 0 0) * (a.getD 0 0 - b.getD 0 0))
    (1/2) [(3 : ℚ)] [("E1", [(3 : ℚ)])]
    (by rw [hval2, hmean])
    (by rw [register_face_eq, if_neg (by rw [hval2]; simp), hval2, hmean]; rfl)
    (by rw [hval2]; simp)
    (by simp)
    (by simp)
    (by
      intro e he hne
      simp only [List.mem_singleton] at he
      subst he
      exact absurd rfl hne)
    (by norm_num)
  exact ⟨h.2.1, h.2.2⟩

theorem stride2_length {α : Type} : ∀ l : List α, (stride2 l).length = (l.length + 1) / 2
  | [] => by simp [stride2]
  | [a] => by simp [stride2]
  | a :: b :: rest => by
    rw [show stride2 (a :: b :: rest) = a :: stride2 rest from rfl]
    simp only [List.length_cons]
    rw [stride2_length rest]
    omega

theorem stride2_ne_nil {α : Type} (l : List α) (h : l ≠ []) : stride2 l ≠ [] := by
  rcases l with _ | ⟨a, t⟩
  · exact absurd rfl h
  · rcases t with _ | ⟨b, rest⟩
    · simp [stride2]
    · simp [stride2]

theorem motionFold_le {α : Type} (mo : α → α → Bool) (l : List α) :
    ∀ (c : ℕ) (p : Option α), (motionFold mo (c, p) l).1 ≤ c + l.length := by
  induction l with
  | nil =>
    intro c p
    simp [motionFold]
  | cons f t ih =>
    intro c p
    have hstep : motionStep mo (c, p) f =
        (c + (if (detect_motion mo p f).1 then 1 else 0), (detect_motion mo p f).2) := rfl
    have hle := ih (c + (if (detect_motion mo p f).1 then 1 else 0)) (detect_motion mo p f).2
    have hone : (if (detect_motion mo p f).1 then 1 else 0) ≤ 1 := by
      split <;> omega
    simp only [motionFold, List.foldl_cons, hstep] at hle ⊢
    simp only [List.length_cons]
    omega

theorem motionFold_reset_bound {α : Type} (mo : α → α → Bool) (l : List α)
    (hne : l ≠ []) : (motionFold mo (0, none) l).1 + 1 ≤ l.length := by
  rcases l with _ | ⟨x, rest⟩
  · exact absurd rfl hne
  · have hstep : motionStep mo (0, none) x = (0, some x) := rfl
    have heq : (motionFold mo (0, none) (x :: rest)).1 =
        (motionFold mo (0, some x) rest).1 := by
      simp [motionFold, List.foldl_cons, hstep]
    rw [heq]
    have hb := motionFold_le mo rest 0 (some x)
    simp only [List.length_cons]
    omega

theorem framesToCheck_ne_nil {α : Type} (fc : ℕ) (frames : List α)
    (hfc : 0 < fc) (hlen : min fc 3 ≤ frames.length) :
    framesToCheck fc frames ≠ [] := by
  have hmin : 0 < min fc 3 := lt_min hfc (by norm_num)
  have hpos : 0 < frames.length := lt_of_lt_of_le hmin hlen
  unfold framesToCheck
  by_cases hgt : frames.length > fc
  · rw [if_pos hgt, if_neg (Nat.pos_iff_ne_zero.mp hfc)]
    intro h0
    have h1 := congrArg List.length h0
    rw [List.length_drop] at h1
    simp only [List.length_nil] at h1
    omega
  · rw [if_neg hgt]
    exact List.ne_nil_of_length_pos hpos

/-- C4: fuse (comprehensive_spoof_check) returns overallReal = true whenever
fewer frames than min(frame_count, 3) are supplied; otherwise it analyzes
texture on the last of the selected frames only, counts motion across the
stride-2 samples, returns overallReal = textureReal OR (motionCount >= 1),
and confidence = 0.6 if textureReal plus 0.4 if at least one motion frame
was detected. -/
theorem comprehensive_spoof_check_fuse_spec {α : Type} (tex : α → Bool)
    (mo : α → α → Bool) (frame_count : ℕ) (frames : List α) :
    (frames.length < min frame_count 3 →
      comprehensive_spoof_check tex mo frame_count frames =
        some ⟨some false, true, none, none, none, "Not enough frames"⟩) ∧
    (0 < frame_count → min frame_count 3 ≤ frames.length →
      (framesToCheck frame_count frames).getLast?.isSome) ∧
    (∀ lastF, min frame_count 3 ≤ frames.length →
      (framesToCheck frame_count frames).getLast? = some lastF →
      comprehensive_spoof_check tex mo frame_count frames =
        some ⟨none,
          tex lastF ||
            decide (1 ≤ (motionFold mo (0, none)
              (stride2 (framesToCheck frame_count frames))).1),
          some (tex lastF),
          some (motionFold mo (0, none)
            (stride2 (framesToCheck frame_count frames))).1,
          some ((if tex lastF then 3/5 else 0) +
            (if decide (1 ≤ (motionFold mo (0, none)
              (stride2 (framesToCheck frame_count frames))).1) then 2/5 else 0)),
          if tex lastF ||
              decide (1 ≤ (motionFold mo (0, none)
                (stride2 (framesToCheck frame_count frames))).1) then
            "Liveness verification passed" else "Possible spoof"⟩) := by
  refine ⟨?_, ?_, ?_⟩
  · intro h
    simp [comprehensive_spoof_check, h]
  · intro hfc hlen
    have hne := framesToCheck_ne_nil frame_count frames hfc hlen
    cases h : (framesToCheck frame_count frames).getLast? with
    | none => exact absurd (List.getLast?_eq_none_iff.mp h) hne
    | some a => rfl
  · intro lastF hlen hlast
    have hnl : ¬ frames.length < min frame_count 3 := not_lt.mpr hlen
    simp [comprehensive_spoof_check, hnl, hlast]

/-- C4 witness: two frames out of a required three pass optimistically; on
[1, 2, 3] texture fails on the last frame but one stride-sampled motion is
detected, so the OR fusion passes with confidence 0.4. -/
theorem comprehensive_spoof_check_fuse_spec_witness :
    comprehensive_spoof_check (fun n : ℕ => decide (n % 2 = 0))
      (fun a b => decide (a < b)) 5 [1, 2] =
      some ⟨some false, true, none, none, none, "Not enough frames"⟩ ∧
    comprehensive_spoof_check (fun n : ℕ => decide (n % 2 = 0))
      (fun a b => decide (a < b)) 5 [1, 2, 3] =
      some ⟨none, true, some false, some 1, some (2/5),
        "Liveness verification passed"⟩ := by
  constructor
  · exact (comprehensive_spoof_check_fuse_spec (fun n : ℕ => decide (n % 2 = 0))
      (fun a b => decide (a < b)) 5 [1, 2]).1 (by decide)
  · have h := (comprehensive_spoof_check_fuse_spec (fun n : ℕ => decide (n % 2 = 0))
      (fun a b => decide (a < b)) 5 [1, 2, 3]).2.2 3 (by decide) (by decide)
    rw [h]
    simp only [framesToCheck, stride2, motionFold, motionStep, detect_motion]
    norm_num
    decide

/-- C10: after a reset (stored previous frame None) the first detect_motion
call returns motion_detected = false and only stores the frame; since
comprehensive_spoof_check resets the detector before its stride-2 loop, the
reported motion_count is at most the number of stride-sampled frames minus
one, so a frames_to_check list of 3 or 4 frames (2 samples) yields
motion_count <= 1. -/
theorem motion_detector_reset_bound {α : Type} (mo : α → α → Bool) :
    (∀ f : α, (detect_motion mo none f).1 = false) ∧
    (∀ (tex : α → Bool) (fc : ℕ) (frames : List α) (r : SpoofResult) (mc : ℕ),
      comprehensive_spoof_check tex mo fc frames = some r →
      r.motion_count = some mc →
      mc + 1 ≤ (stride2 (framesToCheck fc frames)).length ∧
      ((framesToCheck fc frames).length = 3 ∨ (framesToCheck fc frames).length = 4 →
        mc ≤ 1)) := by
  refine ⟨fun f => rfl, ?_⟩
  intro tex fc frames r mc hr hmc
  by_cases hlt : frames.length < min fc 3
  · simp only [comprehensive_spoof_check, if_pos hlt, Option.some.injEq] at hr
    rw [← hr] at hmc
    exact absurd hmc (by simp)
  · cases hlast : (framesToCheck fc frames).getLast? with
    | none =>
      simp [comprehensive_spoof_check, hlt, hlast] at hr
    | some lastF =>
      simp only [comprehensive_spoof_check, if_neg hlt, hlast, Option.some.injEq] at hr
      rw [← hr] at hmc
      simp only [Option.some.injEq] at hmc
      have hne : framesToCheck fc frames ≠ [] := by
        intro h0
        rw [h0] at hlast
        exact Option.noConfusion hlast
      have hbound := motionFold_reset_bound mo (stride2 (framesToCheck fc frames))
        (stride2_ne_nil _ hne)
      constructor
      · omega
      · intro hcase
        have hs2 := stride2_length (framesToCheck fc frames)
        rcases hcase with hc | hc <;> rw [hc] at hs2 <;> omega

/-- C10 witness: the first call after a reset reports no motion, and on the
3-frame sequence [1, 2, 3] the stride-2 loop samples 2 frames and counts at
most 1 motion (here exactly 1). -/
theorem motion_detector_reset_bound_witness :
    (detect_motion (fun a b : ℕ => decide (a < b)) none 7).1 = false ∧
    1 + 1 ≤ (stride2 (framesToCheck 5 [1, 2, 3])).length ∧ (1 : ℕ) ≤ 1 := by
  have hr : comprehensive_spoof_check (fun n : ℕ => decide (n % 2 = 0))
      (fun a b => decide (a < b)) 5 [1, 2, 3] =
      some ⟨none, true, some false, some 1, some (2/5),
        "Liveness verification passed"⟩ := by
    simp only [comprehensive_spoof_check, framesToCheck, stride2, motionFold,
      motionStep, detect_motion]
    norm_num
    decide
  have h := (motion_detector_reset_bound (fun a b : ℕ => decide (a < b))).2
    (fun n : ℕ => decide (n % 2 = 0)) 5 [1, 2, 3]
    ⟨none, true, some false, some 1, some (2/5), "Liveness verification passed"⟩ 1
    hr rfl
  exact ⟨(motion_detector_reset_bound (fun a b : ℕ => decide (a < b))).1 7,
    h.1, h.2 (Or.inl (by decide))⟩

/-- C5: for an OPEN record (punch-in set, punch-out unset), a punch-out at
elapsed = now - punchIn deletes the record and reports a discard carrying
the measured elapsed seconds when elapsed < 20, and otherwise closes it
with punchOut = now and hoursWorked = round(elapsed/3600, 2); a CLOSED
record (punch-out set) is rejected with the attendance-already-complete
message and left unchanged. -/
theorem mark_attendance_punch_out_spec (now pin : ℚ) :
    (now - pin < 20 →
      record_punch_out_with_validation 20 now (some ⟨pin, none, none⟩) =
        (⟨none, true, some (now - pin), none⟩, none) ∧
      mark_attendance_step now (some ⟨pin, none, none⟩) =
        (⟨false, none, "Attendance discarded - punch-out too soon after punch-in",
          none⟩, none)) ∧
    (20 ≤ now - pin →
      mark_attendance_step now (some ⟨pin, none, none⟩) =
        (⟨true, some "Punch Out", "Punch-out recorded",
          some (roundTo 2 ((now - pin) / 3600))⟩,
          some ⟨pin, some now, some (roundTo 2 ((now - pin) / 3600))⟩)) ∧
    (∀ pout hw, mark_attendance_step now (some ⟨pin, some pout, hw⟩) =
      (⟨false, none, "Attendance already complete for today", none⟩,
        some ⟨pin, some pout, hw⟩)) := by
  refine ⟨?_, ?_, ?_⟩
  · intro h
    have hrec : record_punch_out_with_validation 20 now (some ⟨pin, none, none⟩) =
        (⟨none, true, some (now - pin), none⟩, none) := by
      simp [record_punch_out_with_validation, h]
    refine ⟨hrec, ?_⟩
    simp [mark_attendance_step, hrec]
  · intro h
    have hnlt : ¬ now - pin < 20 := not_lt.mpr h
    simp [mark_attendance_step, record_punch_out_with_validation, hnlt]
  · intro pout hw
    simp [mark_attendance_step]

/-- C5 witness: punch-out 5 seconds after punch-in discards with measured
duration 5; punch-out after 3600 seconds closes with hoursWorked 1.0; a
closed record rejects a further attempt unchanged. -/
theorem mark_attendance_punch_out_spec_witness :
    record_punch_out_with_validation 20 5 (some ⟨0, none, none⟩) =
      (⟨none, true, some 5, none⟩, none) ∧
    mark_attendance_step 3600 (some ⟨0, none, none⟩) =
      (⟨true, some "Punch Out", "Punch-out recorded", some 1⟩,
        some ⟨0, some 3600, some 1⟩) ∧
    mark_attendance_step 3600 (some ⟨0, some 100, some (1/36)⟩) =
      (⟨false, none, "Attendance already complete for today", none⟩,
        some ⟨0, some 100, some (1/36)⟩) := by
  have h1 := (mark_attendance_punch_out_spec 5 0).1 (by norm_num)
  have h2 := (mark_attendance_punch_out_spec 3600 0).2.1 (by norm_num)
  have h3 := (mark_attendance_punch_out_spec 3600 0).2.2 100 (some (1/36))
  have hround : roundTo 2 ((3600 - 0 : ℚ) / 3600) = 1 := by
    rw [show ((3600 : ℚ) - 0) / 3600 = 1 by norm_num]
    unfold roundTo
    rw [show ((1 : ℚ)) * 10 ^ 2 = 100 by norm_num,
      roundHalfEven_eq_low 100 100 (by norm_num) (by norm_num) (by norm_num)]
    norm_num
  refine ⟨?_, ?_, h3⟩
  · have h0 := h1.1
    rw [show (5 : ℚ) - 0 = 5 by norm_num] at h0
    exact h0
  · rw [h2, hround]

/-- C6: with an empty privileged registry the next admin enrollment
(fields, images, spoof and face checks all passing) succeeds with no
session token and is assigned role super_admin; with a nonempty registry
the enrollment succeeds iff the supplied token verifies as a valid session
whose role is super_admin, and fails otherwise. -/
theorem register_admin_bootstrap_spec (TTL now : ℤ)
    (admins : List (String × AdminRec)) (ss : Sessions) (req_role : Option String) :
    (∀ token : Option String,
      register_admin_route TTL now admins ss false token req_role true true true true =
        ⟨true, false, some "super_admin", "Admin registered successfully"⟩) ∧
    (∀ token : Option String,
      ((register_admin_route TTL now admins ss true token req_role
          true true true true).success = true) ↔
        ((verify_session TTL now admins ss (token.getD "")).1.valid = true ∧
          (verify_session TTL now admins ss (token.getD "")).1.role =
            some "super_admin")) := by
  constructor
  · intro token
    rfl
  · intro token
    by_cases hv : (verify_session TTL now admins ss (token.getD "")).1.valid = true
    · by_cases hr : (verify_session TTL now admins ss (token.getD "")).1.role =
          some "super_admin"
      · simp [register_admin_route, hv, hr]
      · simp [register_admin_route, hv, hr]
    · simp [register_admin_route, hv]

/-- C6 witness: on an empty registry a tokenless enrollment succeeds with
role super_admin; on a nonempty registry enrollment succeeds with a valid
super_admin token and fails without a token. -/
theorem register_admin_bootstrap_spec_witness :
    (register_admin_route 300 10 [("a1", AdminRec.mk "Ann" "super_admin" true)]
      [("tk", ("a1", (0 : ℤ)))] false none none true true true true) =
      ⟨true, false, some "super_admin", "Admin registered successfully"⟩ ∧
    (register_admin_route 300 10 [("a1", AdminRec.mk "Ann" "super_admin" true)]
      [("tk", ("a1", (0 : ℤ)))] true (some "tk") none true true true true).success =
      true ∧
    (register_admin_route 300 10 [("a1", AdminRec.mk "Ann" "super_admin" true)]
      [("tk", ("a1", (0 : ℤ)))] true none none true true true true).success =
      false := by
  have h := register_admin_bootstrap_spec 300 10
    [("a1", AdminRec.mk "Ann" "super_admin" true)] [("tk", ("a1", (0 : ℤ)))] none
  refine ⟨h.1 none, ?_, ?_⟩
  · exact (h.2 (some "tk")).mpr ⟨by decide, by decide⟩
  · rw [Bool.eq_false_iff]
    intro hs
    have habs := (h.2 none).mp hs
    revert habs
    decide

end FaceAttendance
